import Mathlib

/-! T-Bone, `ArduinoClient/constants.h`.

A verification development for the constants header of the Arduino client:
the register address table of the motion-controller chip and the two
fixed-point conversion helpers `FIXED_8_24_MAKE` and `FIXED_24_8_MAKE`.

The two helpers are preprocessor definitions, so they are embedded as what
they are: a substitution of the argument's tokens into a fixed token sequence,
followed by the C reading of the resulting expression (operator precedence,
the usual arithmetic conversions, the conversion to `int32_t`).

A floating operand is the stored value of the operand, an exact rational. The
only floating operation the helpers themselves perform is a multiplication by
a power of two, which binary floating point carries out exactly. Every other
floating operation is rounded to the floating format; the format is not part
of the header, so such an operation is given no value here.
-/

namespace TBone

/-! Register address table (`constants.h`, lines 1-43). -/

def MAX_MOTOR_CURRENT : Nat := 1500

def GENERAL_CONFIG_REGISTER : Nat := 0x0
def START_CONFIG_REGISTER : Nat := 0x2
def SPIOUT_CONF_REGISTER : Nat := 0x04
def STEP_CONF_REGISTER : Nat := 0x0A
def EVENT_CLEAR_CONF_REGISTER : Nat := 0x0c
def INTERRUPT_REGISTER : Nat := 0x0d
def EVENTS_REGISTER : Nat := 0x0e
def STATUS_REGISTER : Nat := 0x0f
def START_OUT_ADD_REGISTER : Nat := 0x11
def GEAR_RATIO_REGISTER : Nat := 0x12
def START_DELAY_REGISTER : Nat := 0x13
def RAMP_MODE_REGISTER : Nat := 0x20
def X_ACTUAL_REGISTER : Nat := 0x21
def V_ACTUAL_REGISTER : Nat := 0x22
def V_MAX_REGISTER : Nat := 0x24
def V_START_REGISTER : Nat := 0x25
def V_STOP_REGISTER : Nat := 0x26
def A_MAX_REGISTER : Nat := 0x28
def D_MAX_REGISTER : Nat := 0x29
def BOW_1_REGISTER : Nat := 0x2d
def BOW_2_REGISTER : Nat := 0x2e
def BOW_3_REGISTER : Nat := 0x2f
def BOW_4_REGISTER : Nat := 0x30
def CLK_FREQ_REGISTER : Nat := 0x31
def X_TARGET_REGISTER : Nat := 0x37
def X_TARGET_PIPE_0_REGSISTER : Nat := 0x38
def SH_RAMP_MODE_REGISTER : Nat := 0x40
def SH_V_MAX_REGISTER : Nat := 0x41
def SH_V_START_REGISTER : Nat := 0x42
def SH_V_STOP_REGISTER : Nat := 0x43
def SH_VBREAK_REGISTER : Nat := 0x44
def SH_A_MAX_REGISTER : Nat := 0x45
def SH_D_MAX_REGISTER : Nat := 0x46
def SH_BOW_1_REGISTER : Nat := 0x49
def SH_BOW_2_REGISTER : Nat := 0x4a
def SH_BOW_3_REGISTER : Nat := 0x4b
def SH_BOW_4_REGISTER : Nat := 0x4c
def COVER_LOW_REGISTER : Nat := 0x6c
def COVER_HIGH_REGISTER : Nat := 0x6d

/-- The register definitions of the header in source order, each symbolic name
paired with the offset it is defined as. -/
def registerTable : List (String × Nat) :=
  [ ("GENERAL_CONFIG_REGISTER", GENERAL_CONFIG_REGISTER),
    ("START_CONFIG_REGISTER", START_CONFIG_REGISTER),
    ("SPIOUT_CONF_REGISTER", SPIOUT_CONF_REGISTER),
    ("STEP_CONF_REGISTER", STEP_CONF_REGISTER),
    ("EVENT_CLEAR_CONF_REGISTER", EVENT_CLEAR_CONF_REGISTER),
    ("INTERRUPT_REGISTER", INTERRUPT_REGISTER),
    ("EVENTS_REGISTER", EVENTS_REGISTER),
    ("STATUS_REGISTER", STATUS_REGISTER),
    ("START_OUT_ADD_REGISTER", START_OUT_ADD_REGISTER),
    ("GEAR_RATIO_REGISTER", GEAR_RATIO_REGISTER),
    ("START_DELAY_REGISTER", START_DELAY_REGISTER),
    ("RAMP_MODE_REGISTER", RAMP_MODE_REGISTER),
    ("X_ACTUAL_REGISTER", X_ACTUAL_REGISTER),
    ("V_ACTUAL_REGISTER", V_ACTUAL_REGISTER),
    ("V_MAX_REGISTER", V_MAX_REGISTER),
    ("V_START_REGISTER", V_START_REGISTER),
    ("V_STOP_REGISTER", V_STOP_REGISTER),
    ("A_MAX_REGISTER", A_MAX_REGISTER),
    ("D_MAX_REGISTER", D_MAX_REGISTER),
    ("BOW_1_REGISTER", BOW_1_REGISTER),
    ("BOW_2_REGISTER", BOW_2_REGISTER),
    ("BOW_3_REGISTER", BOW_3_REGISTER),
    ("BOW_4_REGISTER", BOW_4_REGISTER),
    ("CLK_FREQ_REGISTER", CLK_FREQ_REGISTER),
    ("X_TARGET_REGISTER", X_TARGET_REGISTER),
    ("X_TARGET_PIPE_0_REGSISTER", X_TARGET_PIPE_0_REGSISTER),
    ("SH_RAMP_MODE_REGISTER", SH_RAMP_MODE_REGISTER),
    ("SH_V_MAX_REGISTER", SH_V_MAX_REGISTER),
    ("SH_V_START_REGISTER", SH_V_START_REGISTER),
    ("SH_V_STOP_REGISTER", SH_V_STOP_REGISTER),
    ("SH_VBREAK_REGISTER", SH_VBREAK_REGISTER),
    ("SH_A_MAX_REGISTER", SH_A_MAX_REGISTER),
    ("SH_D_MAX_REGISTER", SH_D_MAX_REGISTER),
    ("SH_BOW_1_REGISTER", SH_BOW_1_REGISTER),
    ("SH_BOW_2_REGISTER", SH_BOW_2_REGISTER),
    ("SH_BOW_3_REGISTER", SH_BOW_3_REGISTER),
    ("SH_BOW_4_REGISTER", SH_BOW_4_REGISTER),
    ("COVER_LOW_REGISTER", COVER_LOW_REGISTER),
    ("COVER_HIGH_REGISTER", COVER_HIGH_REGISTER) ]

/-- The offset a register name stands for: the first definition of that name
in the header, if there is one. -/
def registerOffset (name : String) : Option Nat :=
  (registerTable.find? (fun entry => entry.1 == name)).map Prod.snd

/-! The C expressions the conversion helpers expand to. -/

/-- The widths the header leaves to the target: those of `int` and of
`unsigned long` (the type of the literals `1ul`, `24ul` and `8ul`). -/
structure Platform where
  intBits : Nat
  ulongBits : Nat
deriving DecidableEq, Repr

/-- The 8-bit AVR boards: 16-bit `int`, 32-bit `unsigned long`. -/
def arduinoAVR : Platform := { intBits := 16, ulongBits := 32 }

/-- A value of one of the operand types that occur: a signed integer type of
the given width (`int`, `long`, `int32_t`), `unsigned long`, or a floating
type (as an exact rational). -/
inductive CVal where
  | sint (bits : Nat) (v : ℤ)
  | ulong (v : ℕ)
  | real (q : ℚ)
deriving DecidableEq

/-- The tokens of the expressions: punctuation, the type name `int32_t`, the
operators `*`, `+` and `<<`, and operands (literals or identifiers, carried
with their value). -/
inductive Tok where
  | lparen
  | rparen
  | int32_t
  | star
  | plus
  | shl
  | atom (v : CVal)
deriving DecidableEq

/-- Parsed expressions over those tokens. -/
inductive CExpr where
  | atom (v : CVal)
  | cast32 (e : CExpr)
  | mul (a b : CExpr)
  | add (a b : CExpr)
  | shl (a b : CExpr)
deriving DecidableEq

/-- The expansion of `FIXED_8_24_MAKE(a)`, defined in the header as
`(int32_t)((a*(1ul << 24ul)))`: the tokens of the argument replace `a` as they
are, without parentheses around them. -/
def FIXED_8_24_MAKE (a : List Tok) : List Tok :=
  [Tok.lparen, Tok.int32_t, Tok.rparen, Tok.lparen, Tok.lparen] ++ a ++
    [Tok.star, Tok.lparen, Tok.atom (CVal.ulong 1), Tok.shl, Tok.atom (CVal.ulong 24),
      Tok.rparen, Tok.rparen, Tok.rparen]

/-- The expansion of `FIXED_24_8_MAKE(a)`, defined in the header as
`(int32_t)((a*(1ul << 8ul)))`: the tokens of the argument replace `a` as they
are, without parentheses around them. -/
def FIXED_24_8_MAKE (a : List Tok) : List Tok :=
  [Tok.lparen, Tok.int32_t, Tok.rparen, Tok.lparen, Tok.lparen] ++ a ++
    [Tok.star, Tok.lparen, Tok.atom (CVal.ulong 1), Tok.shl, Tok.atom (CVal.ulong 8),
      Tok.rparen, Tok.rparen, Tok.rparen]

/-! Reading a token sequence as a C expression.

Precedence levels, loosest first: `0` shift (`<<`), `1` additive (`+`),
`2` multiplicative (`*`), `3` cast and primary expressions. The binary
operators associate to the left. The first argument bounds the recursion
depth. -/

mutual
def parseLevel : Nat → Nat → List Tok → Option (CExpr × List Tok)
  | 0, _, _ => none
  | fuel + 1, 0, ts =>
    match parseLevel fuel 1 ts with
    | some (e, rest) => parseShiftTail fuel e rest
    | none => none
  | fuel + 1, 1, ts =>
    match parseLevel fuel 2 ts with
    | some (e, rest) => parseAddTail fuel e rest
    | none => none
  | fuel + 1, 2, ts =>
    match parseLevel fuel 3 ts with
    | some (e, rest) => parseMulTail fuel e rest
    | none => none
  | fuel + 1, _ + 3, ts =>
    match ts with
    | Tok.atom v :: rest => some (CExpr.atom v, rest)
    | Tok.lparen :: Tok.int32_t :: Tok.rparen :: rest =>
      match parseLevel fuel 3 rest with
      | some (e, rest2) => some (CExpr.cast32 e, rest2)
      | none => none
    | Tok.lparen :: rest =>
      match parseLevel fuel 0 rest with
      | some (e, Tok.rparen :: rest2) => some (e, rest2)
      | _ => none
    | _ => none
def parseShiftTail : Nat → CExpr → List Tok → Option (CExpr × List Tok)
  | 0, _, _ => none
  | fuel + 1, lhs, Tok.shl :: ts =>
    match parseLevel fuel 1 ts with
    | some (rhs, rest) => parseShiftTail fuel (CExpr.shl lhs rhs) rest
    | none => none
  | _ + 1, lhs, ts => some (lhs, ts)
def parseAddTail : Nat → CExpr → List Tok → Option (CExpr × List Tok)
  | 0, _, _ => none
  | fuel + 1, lhs, Tok.plus :: ts =>
    match parseLevel fuel 2 ts with
    | some (rhs, rest) => parseAddTail fuel (CExpr.add lhs rhs) rest
    | none => none
  | _ + 1, lhs, ts => some (lhs, ts)
def parseMulTail : Nat → CExpr → List Tok → Option (CExpr × List Tok)
  | 0, _, _ => none
  | fuel + 1, lhs, Tok.star :: ts =>
    match parseLevel fuel 3 ts with
    | some (rhs, rest) => parseMulTail fuel (CExpr.mul lhs rhs) rest
    | none => none
  | _ + 1, lhs, ts => some (lhs, ts)
end

/-- A whole token sequence read as one expression; `none` when it is not
one. The recursion depth allowed is four (one per precedence level) for each
token, and four more. -/
def parseExpr (ts : List Tok) : Option CExpr :=
  match parseLevel (4 * ts.length + 4) 0 ts with
  | some (e, []) => some e
  | _ => none

/-! Values of the expressions. -/

/-- Whether `v` is a value of the signed integer type of the given width. -/
def inSigned (bits : Nat) (v : ℤ) : Bool :=
  decide (-(2 : ℤ) ^ (bits - 1) ≤ v) && decide (v < (2 : ℤ) ^ (bits - 1))

/-- Reduction modulo `2 ^ bits` into the signed range: conversion of an
out-of-range integer to a signed type as gcc and avr-gcc define it. -/
def wrapSigned (bits : Nat) (v : ℤ) : ℤ :=
  if v % (2 : ℤ) ^ bits < (2 : ℤ) ^ (bits - 1) then v % (2 : ℤ) ^ bits
  else v % (2 : ℤ) ^ bits - (2 : ℤ) ^ bits

/-- Conversion of an integer to `unsigned long`: reduction modulo
`2 ^ ulongBits`. -/
def toULong (P : Platform) (v : ℤ) : ℕ :=
  (v % (2 : ℤ) ^ P.ulongBits).toNat

/-- Conversion of an operand to the floating type. -/
def toReal : CVal → ℚ
  | CVal.sint _ v => v
  | CVal.ulong u => u
  | CVal.real q => q

/-- The integral part of a rational: the fraction is discarded, so the
quotient of numerator by denominator is taken toward zero. -/
def truncToZero (q : ℚ) : ℤ :=
  Int.tdiv q.num q.den

/-- Whether a rational is a power of two that is at least `1`. -/
def isPowerOfTwo (q : ℚ) : Bool :=
  decide (q.den = 1) && decide (q.num = 2 ^ Nat.log 2 q.num.toNat)

/-- `*` with a floating operand. A floating operand times a power of two
(at least `1`, of any operand type) is exact in binary floating point and has
that product as its value. Any other floating product is rounded to the
floating format, which is not modelled: no value (`none`). -/
def mulReal : CVal → CVal → Option CVal
  | CVal.real x, CVal.real y =>
    if isPowerOfTwo y || isPowerOfTwo x then some (CVal.real (x * y)) else none
  | CVal.real x, b =>
    if isPowerOfTwo (toReal b) then some (CVal.real (x * toReal b)) else none
  | a, CVal.real y =>
    if isPowerOfTwo (toReal a) then some (CVal.real (toReal a * y)) else none
  | _, _ => none

/-- `+` with a floating operand: the sum is rounded to the floating format,
which is not modelled: no value (`none`). -/
def addReal : CVal → CVal → Option CVal
  | _, _ => none

/-- `*` and `+` after the usual arithmetic conversions. With a floating
operand the operation is floating and is left to `fr`. Otherwise, with an
`unsigned long` operand the operation is done in `unsigned long` (modulo
`2 ^ ulongBits`) unless the other operand has a wider signed type; signed
operations are done in the wider of the two types, at least `int`, and their
overflow is undefined (`none`). -/
def binArith (P : Platform) (fz : ℤ → ℤ → ℤ) (fr : CVal → CVal → Option CVal) :
    CVal → CVal → Option CVal
  | CVal.real x, b => fr (CVal.real x) b
  | a, CVal.real y => fr a (CVal.real y)
  | CVal.ulong u, CVal.ulong v => some (CVal.ulong (toULong P (fz u v)))
  | CVal.ulong u, CVal.sint b v =>
    if b ≤ P.ulongBits then some (CVal.ulong (toULong P (fz u (toULong P v))))
    else if inSigned b (fz u v) then some (CVal.sint b (fz u v)) else none
  | CVal.sint b v, CVal.ulong u =>
    if b ≤ P.ulongBits then some (CVal.ulong (toULong P (fz (toULong P v) u)))
    else if inSigned b (fz v u) then some (CVal.sint b (fz v u)) else none
  | CVal.sint b1 v1, CVal.sint b2 v2 =>
    if inSigned (max (max b1 b2) P.intBits) (fz v1 v2)
    then some (CVal.sint (max (max b1 b2) P.intBits) (fz v1 v2)) else none

/-- The shift count of `<<`, when the right operand is an integer. -/
def shiftCount : CVal → Option ℤ
  | CVal.sint _ v => some v
  | CVal.ulong u => some u
  | CVal.real _ => none

/-- `<<`: the result has the (promoted) type of the left operand. A count
that is negative or not below the width of that type is undefined, as is a
signed left operand that is negative or whose shifted value does not fit; a
floating operand is not allowed. -/
def shiftLeft (P : Platform) : CVal → CVal → Option CVal
  | CVal.ulong u, c =>
    match shiftCount c with
    | some s =>
      if 0 ≤ s ∧ s < P.ulongBits then some (CVal.ulong (toULong P (u * 2 ^ s.toNat))) else none
    | none => none
  | CVal.sint b v, c =>
    match shiftCount c with
    | some s =>
      if 0 ≤ s ∧ s < max b P.intBits ∧ 0 ≤ v ∧ inSigned (max b P.intBits) (v * 2 ^ s.toNat)
      then some (CVal.sint (max b P.intBits) (v * 2 ^ s.toNat)) else none
    | none => none
  | CVal.real _, _ => none

/-- `(int32_t)`: integers are reduced modulo `2 ^ 32` into the signed range;
a floating value loses its fraction, and the conversion is undefined (`none`)
when the integral part is not an `int32_t` value. -/
def castInt32 : CVal → Option CVal
  | CVal.sint _ v => some (CVal.sint 32 (wrapSigned 32 v))
  | CVal.ulong u => some (CVal.sint 32 (wrapSigned 32 u))
  | CVal.real q =>
    if inSigned 32 (truncToZero q) then some (CVal.sint 32 (truncToZero q)) else none

/-- An operand as a value of its type; an `unsigned long` operand is kept
within the width of the type. -/
def atomValue (P : Platform) : CVal → CVal
  | CVal.ulong u => CVal.ulong (u % 2 ^ P.ulongBits)
  | v => v

/-- The value of an expression; `none` where C leaves it undefined and where
the value depends on the rounding of the floating format (see `mulReal` and
`addReal`). -/
def evalExpr (P : Platform) : CExpr → Option CVal
  | CExpr.atom v => some (atomValue P v)
  | CExpr.cast32 e =>
    match evalExpr P e with
    | some v => castInt32 v
    | none => none
  | CExpr.mul a b =>
    match evalExpr P a, evalExpr P b with
    | some x, some y => binArith P (fun m n => m * n) mulReal x y
    | _, _ => none
  | CExpr.add a b =>
    match evalExpr P a, evalExpr P b with
    | some x, some y => binArith P (fun m n => m + n) addReal x y
    | _, _ => none
  | CExpr.shl a b =>
    match evalExpr P a, evalExpr P b with
    | some x, some y => shiftLeft P x y
    | _, _ => none

/-- The value of a token sequence read as a C expression. -/
def evalTokens (P : Platform) (ts : List Tok) : Option CVal :=
  match parseExpr ts with
  | some e => evalExpr P e
  | none => none

/-- Modelled from the spec: `real_from_Q24`, the reverse conversion the spec
mentions for a re-implementation (the header has none): the Q24 integer
divided by `2 ^ 24`. -/
def real_from_Q24 (r : ℤ) : ℚ :=
  (r : ℚ) / 2 ^ 24

/-! Auxiliary facts. -/

theorem truncToZero_of_nonneg {q : ℚ} (hq : 0 ≤ q) : truncToZero q = ⌊q⌋ := by
  unfold truncToZero
  rw [Int.tdiv_eq_ediv (Rat.num_nonneg.mpr hq) (Int.ofNat_nonneg _)]
  exact (Rat.floor_def' q).symm

theorem truncToZero_neg (q : ℚ) : truncToZero (-q) = -truncToZero q := by
  unfold truncToZero
  rw [Rat.neg_num, Rat.neg_den, Int.neg_tdiv]

theorem truncToZero_of_nonpos {q : ℚ} (hq : q ≤ 0) : truncToZero q = ⌈q⌉ := by
  have h := truncToZero_of_nonneg (neg_nonneg.mpr hq)
  rw [truncToZero_neg, Int.floor_neg] at h
  exact neg_injective h

theorem truncToZero_intCast (k : ℤ) : truncToZero (k : ℚ) = k := by
  rcases le_total 0 k with h | h
  · rw [truncToZero_of_nonneg (by exact_mod_cast h), Int.floor_intCast]
  · rw [truncToZero_of_nonpos (by exact_mod_cast h), Int.ceil_intCast]

theorem two_pow_le_ulong (P : Platform) (hw : 32 ≤ P.ulongBits) :
    (2 : ℕ) ^ 32 ≤ 2 ^ P.ulongBits :=
  Nat.pow_le_pow_right (by norm_num) hw

theorem parse_FIXED_8_24_atom (v : CVal) :
    parseExpr (FIXED_8_24_MAKE [Tok.atom v]) =
      some (CExpr.cast32 (CExpr.mul (CExpr.atom v)
        (CExpr.shl (CExpr.atom (CVal.ulong 1)) (CExpr.atom (CVal.ulong 24))))) := rfl

theorem parse_FIXED_24_8_atom (v : CVal) :
    parseExpr (FIXED_24_8_MAKE [Tok.atom v]) =
      some (CExpr.cast32 (CExpr.mul (CExpr.atom v)
        (CExpr.shl (CExpr.atom (CVal.ulong 1)) (CExpr.atom (CVal.ulong 8))))) := rfl

/-- The scale factor `1ul << k` is `2 ^ k` for every shift below 32. -/
theorem eval_scale (P : Platform) (hw : 32 ≤ P.ulongBits) (k : ℕ) (hk : k < 32) :
    evalExpr P (CExpr.shl (CExpr.atom (CVal.ulong 1)) (CExpr.atom (CVal.ulong k))) =
      some (CVal.ulong (2 ^ k)) := by
  have h32 := two_pow_le_ulong P hw
  have hk2 : (2 : ℕ) ^ k < 2 ^ 32 := Nat.pow_lt_pow_right (by norm_num) hk
  have hkk : k < 2 ^ P.ulongBits := by
    have : k < 2 ^ k := Nat.lt_two_pow k
    omega
  have h1 : 1 % 2 ^ P.ulongBits = 1 := Nat.mod_eq_of_lt (by omega)
  have hkm : k % 2 ^ P.ulongBits = k := Nat.mod_eq_of_lt hkk
  have hlt : (k : ℤ) < P.ulongBits := by omega
  simp only [evalExpr, atomValue, shiftLeft, shiftCount, h1, hkm]
  rw [if_pos ⟨Int.ofNat_nonneg _, hlt⟩]
  simp only [toULong, Int.toNat_ofNat, Nat.cast_one, one_mul]
  congr 2
  have : ((2 : ℤ) ^ k) % 2 ^ P.ulongBits = 2 ^ k := by
    apply Int.emod_eq_of_lt (by positivity)
    exact_mod_cast (lt_of_lt_of_le hk2 h32)
  rw [this]
  exact_mod_cast Int.toNat_ofNat (2 ^ k)

theorem truncToZero_mono {x y : ℚ} (hxy : x ≤ y) : truncToZero x ≤ truncToZero y := by
  rcases le_total 0 x with hx | hx
  · rw [truncToZero_of_nonneg hx, truncToZero_of_nonneg (hx.trans hxy)]
    exact Int.floor_mono hxy
  · rcases le_total 0 y with hy | hy
    · rw [truncToZero_of_nonpos hx, truncToZero_of_nonneg hy]
      have h1 : ⌈x⌉ ≤ 0 := Int.ceil_le.mpr (by simpa using hx)
      have h2 : 0 ≤ ⌊y⌋ := Int.floor_nonneg.mpr hy
      exact h1.trans h2
    · rw [truncToZero_of_nonpos hx, truncToZero_of_nonpos hy]
      exact Int.ceil_mono hxy

theorem inSigned_iff (bits : Nat) (v : ℤ) :
    inSigned bits v = true ↔ -(2 : ℤ) ^ (bits - 1) ≤ v ∧ v < (2 : ℤ) ^ (bits - 1) := by
  simp [inSigned]

/-- Within the `int32_t` range the integral part stays within the range. -/
theorem truncToZero_inSigned {y : ℚ} (hlo : -(2 : ℚ) ^ 31 ≤ y) (hhi : y < (2 : ℚ) ^ 31) :
    inSigned 32 (truncToZero y) = true := by
  rw [inSigned_iff]
  have hlo2 : truncToZero ((-(2 : ℤ) ^ 31 : ℤ) : ℚ) ≤ truncToZero y :=
    truncToZero_mono (by push_cast; exact hlo)
  rw [truncToZero_intCast] at hlo2
  refine ⟨by simpa using hlo2, ?_⟩
  rcases le_total 0 y with hy | hy
  · rw [truncToZero_of_nonneg hy]
    exact Int.floor_lt.mpr (by push_cast; simpa using hhi)
  · rw [truncToZero_of_nonpos hy]
    have h1 : ⌈y⌉ ≤ 0 := Int.ceil_le.mpr (by simpa using hy)
    have : (0 : ℤ) < 2 ^ (32 - 1) := by positivity
    omega

theorem castInt32_real {y : ℚ} (hlo : -(2 : ℚ) ^ 31 ≤ y) (hhi : y < (2 : ℚ) ^ 31) :
    castInt32 (CVal.real y) = some (CVal.sint 32 (truncToZero y)) := by
  simp [castInt32, truncToZero_inSigned hlo hhi]

theorem isPowerOfTwo_two_pow (k : ℕ) : isPowerOfTwo (((2 ^ k : ℕ) : ℕ) : ℚ) = true := by
  have hlog : Nat.log 2 (2 ^ k) = k := Nat.log_pow (by norm_num) k
  have hnum : (((2 ^ k : ℕ) : ℕ) : ℚ).num = ((2 ^ k : ℕ) : ℤ) := Rat.num_natCast _
  have hden : (((2 ^ k : ℕ) : ℕ) : ℚ).den = 1 := Rat.den_natCast _
  unfold isPowerOfTwo
  rw [hnum, hden, Int.toNat_natCast, hlog]
  simp

/-- A floating operand scaled by `1ul << k` and converted to `int32_t`. -/
theorem eval_scaled_real (P : Platform) (hw : 32 ≤ P.ulongBits) (k : ℕ) (hk : k < 32) (x : ℚ) :
    evalExpr P (CExpr.cast32 (CExpr.mul (CExpr.atom (CVal.real x))
        (CExpr.shl (CExpr.atom (CVal.ulong 1)) (CExpr.atom (CVal.ulong k))))) =
      castInt32 (CVal.real (x * 2 ^ k)) := by
  have hs := eval_scale P hw k hk
  have hp := isPowerOfTwo_two_pow k
  rw [evalExpr, evalExpr, hs]
  simp only [evalExpr, atomValue, binArith, mulReal, toReal, hp, if_true]
  push_cast
  rfl

theorem wrapSigned_range (v : ℤ) :
    -(2 : ℤ) ^ 31 ≤ wrapSigned 32 v ∧ wrapSigned 32 v < (2 : ℤ) ^ 31 := by
  have h1 : 0 ≤ v % (2 : ℤ) ^ 32 := Int.emod_nonneg _ (by norm_num)
  have h2 : v % (2 : ℤ) ^ 32 < (2 : ℤ) ^ 32 := Int.emod_lt_of_pos _ (by norm_num)
  unfold wrapSigned
  split_ifs with h
  · constructor
    · have : (0 : ℤ) < 2 ^ 31 := by norm_num
      omega
    · simpa using h
  · simp only [not_lt] at h
    norm_num at h h1 h2 ⊢
    omega

theorem wrapSigned_modEq (v : ℤ) : wrapSigned 32 v ≡ v [ZMOD (2 : ℤ) ^ 32] := by
  unfold wrapSigned
  split_ifs with h
  · exact Int.mod_modEq v _
  · have h1 : v % (2 : ℤ) ^ 32 - (2 : ℤ) ^ 32 ≡ v % (2 : ℤ) ^ 32 [ZMOD (2 : ℤ) ^ 32] := by
      rw [Int.modEq_iff_dvd]
      simp
    exact h1.trans (Int.mod_modEq v _)

/-- Two `int32_t` values that agree modulo `2 ^ 32` are equal. -/
theorem eq_of_modEq_of_range {r s : ℤ} (h : r ≡ s [ZMOD (2 : ℤ) ^ 32])
    (hr : -(2 : ℤ) ^ 31 ≤ r ∧ r < (2 : ℤ) ^ 31) (hs : -(2 : ℤ) ^ 31 ≤ s ∧ s < (2 : ℤ) ^ 31) :
    r = s := by
  rw [Int.modEq_iff_dvd] at h
  obtain ⟨c, hc⟩ := h
  norm_num at hr hs hc
  omega

theorem toULong_modEq (P : Platform) (hw : 32 ≤ P.ulongBits) (v : ℤ) :
    (toULong P v : ℤ) ≡ v [ZMOD (2 : ℤ) ^ 32] := by
  unfold toULong
  have hpos : (0 : ℤ) < 2 ^ P.ulongBits := by positivity
  rw [Int.toNat_of_nonneg (Int.emod_nonneg _ hpos.ne')]
  have h1 : v % (2 : ℤ) ^ P.ulongBits ≡ v [ZMOD (2 : ℤ) ^ P.ulongBits] := Int.mod_modEq v _
  exact h1.of_dvd (pow_dvd_pow 2 hw)

theorem eval_product_sint (P : Platform) (hw : 32 ≤ P.ulongBits) (k : ℕ) (hk : k < 32)
    (b : ℕ) (hb : b ≤ P.ulongBits) (a : ℤ) :
    evalExpr P (CExpr.mul (CExpr.atom (CVal.sint b a))
        (CExpr.shl (CExpr.atom (CVal.ulong 1)) (CExpr.atom (CVal.ulong k)))) =
      some (CVal.ulong (toULong P ((toULong P a : ℤ) * ((2 ^ k : ℕ) : ℤ)))) := by
  rw [evalExpr, eval_scale P hw k hk]
  simp only [evalExpr, atomValue, binArith, if_pos hb]

/-- An integer operand scaled by `1ul << k` and converted to `int32_t`: the
product modulo `2 ^ 32`, in the signed range. -/
theorem eval_scaled_sint (P : Platform) (hw : 32 ≤ P.ulongBits) (k : ℕ) (hk : k < 32)
    (b : ℕ) (hb : b ≤ P.ulongBits) (a : ℤ) :
    ∃ r : ℤ, evalExpr P (CExpr.cast32 (CExpr.mul (CExpr.atom (CVal.sint b a))
        (CExpr.shl (CExpr.atom (CVal.ulong 1)) (CExpr.atom (CVal.ulong k))))) =
          some (CVal.sint 32 r) ∧
      (-(2 : ℤ) ^ 31 ≤ r ∧ r < (2 : ℤ) ^ 31) ∧ r ≡ a * 2 ^ k [ZMOD (2 : ℤ) ^ 32] := by
  refine ⟨wrapSigned 32 (toULong P ((toULong P a : ℤ) * ((2 ^ k : ℕ) : ℤ))), ?_,
    wrapSigned_range _, ?_⟩
  · rw [evalExpr, eval_product_sint P hw k hk b hb a]
    simp only [castInt32]
  · refine (wrapSigned_modEq _).trans ?_
    refine (toULong_modEq P hw _).trans ?_
    have := toULong_modEq P hw a
    push_cast
    exact this.mul_right _

/-- The integral part is no larger in magnitude than the value and less than
one away from it. -/
theorem truncToZero_abs (y : ℚ) :
    |(truncToZero y : ℚ)| ≤ |y| ∧ |y - (truncToZero y : ℚ)| < 1 := by
  rcases le_total 0 y with hy | hy
  · rw [truncToZero_of_nonneg hy]
    have h0 : (0 : ℚ) ≤ (⌊y⌋ : ℚ) := by exact_mod_cast Int.floor_nonneg.mpr hy
    have h1 : (⌊y⌋ : ℚ) ≤ y := Int.floor_le y
    have h2 : y < (⌊y⌋ : ℚ) + 1 := Int.lt_floor_add_one y
    rw [abs_of_nonneg h0, abs_of_nonneg hy, abs_lt]
    constructor <;> [exact h1; constructor <;> linarith]
  · rw [truncToZero_of_nonpos hy]
    have h0 : (⌈y⌉ : ℚ) ≤ 0 := by exact_mod_cast Int.ceil_le.mpr (by simpa using hy)
    have h1 : y ≤ (⌈y⌉ : ℚ) := Int.le_ceil y
    have h2 : (⌈y⌉ : ℚ) < y + 1 := Int.ceil_lt_add_one y
    rw [abs_of_nonpos h0, abs_of_nonpos hy, abs_lt]
    constructor <;> [linarith; constructor <;> linarith]

/-- A floating argument in range: `FIXED_8_24_MAKE` yields the integral part
of the argument times `2 ^ 24`. -/
theorem eval_FIXED_8_24_real (P : Platform) (hw : 32 ≤ P.ulongBits) (x : ℚ)
    (hlo : -(2 : ℚ) ^ 31 ≤ x * 2 ^ 24) (hhi : x * 2 ^ 24 < (2 : ℚ) ^ 31) :
    evalTokens P (FIXED_8_24_MAKE [Tok.atom (CVal.real x)]) =
      some (CVal.sint 32 (truncToZero (x * 2 ^ 24))) := by
  unfold evalTokens
  rw [parse_FIXED_8_24_atom]
  simp only []
  rw [eval_scaled_real P hw 24 (by norm_num) x, castInt32_real hlo hhi]

/-- A floating argument in range: `FIXED_24_8_MAKE` yields the integral part
of the argument times `2 ^ 8`. -/
theorem eval_FIXED_24_8_real (P : Platform) (hw : 32 ≤ P.ulongBits) (x : ℚ)
    (hlo : -(2 : ℚ) ^ 31 ≤ x * 2 ^ 8) (hhi : x * 2 ^ 8 < (2 : ℚ) ^ 31) :
    evalTokens P (FIXED_24_8_MAKE [Tok.atom (CVal.real x)]) =
      some (CVal.sint 32 (truncToZero (x * 2 ^ 8))) := by
  unfold evalTokens
  rw [parse_FIXED_24_8_atom]
  simp only []
  rw [eval_scaled_real P hw 8 (by norm_num) x, castInt32_real hlo hhi]

theorem eval_FIXED_8_24_sint (P : Platform) (hw : 32 ≤ P.ulongBits)
    (b : ℕ) (hb : b ≤ P.ulongBits) (a : ℤ) :
    ∃ r : ℤ, evalTokens P (FIXED_8_24_MAKE [Tok.atom (CVal.sint b a)]) = some (CVal.sint 32 r) ∧
      (-(2 : ℤ) ^ 31 ≤ r ∧ r < (2 : ℤ) ^ 31) ∧ r ≡ a * 2 ^ 24 [ZMOD (2 : ℤ) ^ 32] := by
  unfold evalTokens
  rw [parse_FIXED_8_24_atom]
  exact eval_scaled_sint P hw 24 (by norm_num) b hb a

theorem eval_FIXED_24_8_sint (P : Platform) (hw : 32 ≤ P.ulongBits)
    (b : ℕ) (hb : b ≤ P.ulongBits) (a : ℤ) :
    ∃ r : ℤ, evalTokens P (FIXED_24_8_MAKE [Tok.atom (CVal.sint b a)]) = some (CVal.sint 32 r) ∧
      (-(2 : ℤ) ^ 31 ≤ r ∧ r < (2 : ℤ) ^ 31) ∧ r ≡ a * 2 ^ 8 [ZMOD (2 : ℤ) ^ 32] := by
  unfold evalTokens
  rw [parse_FIXED_24_8_atom]
  exact eval_scaled_sint P hw 8 (by norm_num) b hb a

/-- A concrete `int32_t` result is determined by its residue modulo `2 ^ 32`. -/
theorem result_eq_of_modEq {o : Option CVal} {v s : ℤ}
    (h : ∃ r : ℤ, o = some (CVal.sint 32 r) ∧
      (-(2 : ℤ) ^ 31 ≤ r ∧ r < (2 : ℤ) ^ 31) ∧ r ≡ v [ZMOD (2 : ℤ) ^ 32])
    (hs : -(2 : ℤ) ^ 31 ≤ s ∧ s < (2 : ℤ) ^ 31) (hv : v ≡ s [ZMOD (2 : ℤ) ^ 32]) :
    o = some (CVal.sint 32 s) := by
  obtain ⟨r, ho, hr, hm⟩ := h
  rw [ho, eq_of_modEq_of_range (hm.trans hv) hr hs]

/-! Register table. -/

theorem registerTable_offsets_nodup : (registerTable.map Prod.snd).Nodup := by
  decide

theorem registerOffset_mem {name : String} {off : Nat}
    (h : registerOffset name = some off) : (name, off) ∈ registerTable := by
  unfold registerOffset at h
  rw [Option.map_eq_some'] at h
  obtain ⟨e, he, hoff⟩ := h
  have hmem := List.mem_of_find?_eq_some he
  have hname := List.find?_some he
  simp only [beq_iff_eq] at hname
  have : e = (name, off) := Prod.ext hname hoff
  rwa [this] at hmem

/-- C4: the register address table has 39 entries, every one of its names
yields its own offset, and two distinct register names never yield the same
offset. -/
theorem registerOffset_injective :
    registerTable.length = 39 ∧
    (∀ e ∈ registerTable, registerOffset e.1 = some e.2) ∧
    ∀ n1 n2 o1 o2, registerOffset n1 = some o1 → registerOffset n2 = some o2 →
      n1 ≠ n2 → o1 ≠ o2 := by
  refine ⟨rfl, by decide, ?_⟩
  intro n1 n2 o1 o2 h1 h2 hne ho
  have m1 := registerOffset_mem h1
  have m2 := registerOffset_mem h2
  have hinj := List.inj_on_of_nodup_map registerTable_offsets_nodup m1 m2 ho
  exact hne (congrArg Prod.fst hinj)

theorem registerOffset_injective_witness :
    registerOffset "RAMP_MODE_REGISTER" = some 32 ∧
    registerOffset "V_MAX_REGISTER" = some 36 ∧
    "RAMP_MODE_REGISTER" ≠ "V_MAX_REGISTER" ∧ (32 : Nat) ≠ 36 :=
  ⟨by decide, by decide, by decide,
    registerOffset_injective.2.2 "RAMP_MODE_REGISTER" "V_MAX_REGISTER" 32 36
      (by decide) (by decide) (by decide)⟩

/-- C5: the register table yields the documented literal offsets for the
names the spec cites: `RAMP_MODE_REGISTER` is `0x20` (32) and
`V_MAX_REGISTER` is `0x24` (36), both as constants and by name. -/
theorem cited_register_offsets :
    RAMP_MODE_REGISTER = 0x20 ∧ RAMP_MODE_REGISTER = 32 ∧
    V_MAX_REGISTER = 0x24 ∧ V_MAX_REGISTER = 36 ∧
    registerOffset "RAMP_MODE_REGISTER" = some 32 ∧
    registerOffset "V_MAX_REGISTER" = some 36 := by
  refine ⟨rfl, rfl, rfl, rfl, by decide, by decide⟩

/-! Fixed-point conversion of a floating argument. -/

/-- C1 (as stated, refuted): at `x = 7 / 2 ^ 27` the scaled value
`x * 2 ^ 24 = 7 / 8` is in range and its nearest integer is `1`, but
`FIXED_8_24_MAKE(x)` is `0`, more than one half away from the scaled value. -/
theorem FIXED_8_24_MAKE_not_nearest :
    (-(2 : ℚ) ^ 31 ≤ (7 / 2 ^ 27 : ℚ) * 2 ^ 24 ∧ (7 / 2 ^ 27 : ℚ) * 2 ^ 24 < (2 : ℚ) ^ 31) ∧
    evalTokens arduinoAVR (FIXED_8_24_MAKE [Tok.atom (CVal.real (7 / 2 ^ 27))]) =
      some (CVal.sint 32 0) ∧
    round ((7 / 2 ^ 27 : ℚ) * 2 ^ 24) = 1 ∧
    (1 / 2 : ℚ) < |(7 / 2 ^ 27 : ℚ) * 2 ^ 24 - ((0 : ℤ) : ℚ)| := by
  have hlo : -(2 : ℚ) ^ 31 ≤ (7 / 2 ^ 27 : ℚ) * 2 ^ 24 := by norm_num
  have hhi : (7 / 2 ^ 27 : ℚ) * 2 ^ 24 < (2 : ℚ) ^ 31 := by norm_num
  refine ⟨⟨hlo, hhi⟩, ?_, ?_, ?_⟩
  · rw [eval_FIXED_8_24_real arduinoAVR (by decide) _ hlo hhi,
      truncToZero_of_nonneg (by norm_num)]
    have : ⌊(7 / 2 ^ 27 : ℚ) * 2 ^ 24⌋ = 0 := by
      rw [Int.floor_eq_iff]; norm_num
    rw [this]
  · rw [round_eq, Int.floor_eq_iff]; norm_num
  · norm_num [abs_of_nonneg]

/-- C1 (amended): for each conversion helper with `n` fractional bits
(`n = 24` for `FIXED_8_24_MAKE`, `n = 8` for `FIXED_24_8_MAKE`) and every
rational `x` with `x * 2 ^ n` in `[-2 ^ 31, 2 ^ 31)`, the helper returns
`x * 2 ^ n` truncated toward zero, as a 32-bit signed integer: an integer `r`
in the `int32_t` range with `|r| ≤ |x * 2 ^ n|` and `|x * 2 ^ n - r| < 1`. -/
theorem FIXED_MAKE_truncates_toward_zero (P : Platform) (hw : 32 ≤ P.ulongBits) (x : ℚ) :
    (-(2 : ℚ) ^ 31 ≤ x * 2 ^ 24 → x * 2 ^ 24 < (2 : ℚ) ^ 31 →
      ∃ r : ℤ, evalTokens P (FIXED_8_24_MAKE [Tok.atom (CVal.real x)]) = some (CVal.sint 32 r) ∧
        (-(2 : ℤ) ^ 31 ≤ r ∧ r < (2 : ℤ) ^ 31) ∧
        |(r : ℚ)| ≤ |x * 2 ^ 24| ∧ |x * 2 ^ 24 - (r : ℚ)| < 1) ∧
    (-(2 : ℚ) ^ 31 ≤ x * 2 ^ 8 → x * 2 ^ 8 < (2 : ℚ) ^ 31 →
      ∃ r : ℤ, evalTokens P (FIXED_24_8_MAKE [Tok.atom (CVal.real x)]) = some (CVal.sint 32 r) ∧
        (-(2 : ℤ) ^ 31 ≤ r ∧ r < (2 : ℤ) ^ 31) ∧
        |(r : ℚ)| ≤ |x * 2 ^ 8| ∧ |x * 2 ^ 8 - (r : ℚ)| < 1) := by
  constructor
  · intro hlo hhi
    refine ⟨truncToZero (x * 2 ^ 24), eval_FIXED_8_24_real P hw x hlo hhi, ?_,
      truncToZero_abs _⟩
    simpa [inSigned_iff] using truncToZero_inSigned hlo hhi
  · intro hlo hhi
    refine ⟨truncToZero (x * 2 ^ 8), eval_FIXED_24_8_real P hw x hlo hhi, ?_,
      truncToZero_abs _⟩
    simpa [inSigned_iff] using truncToZero_inSigned hlo hhi

theorem FIXED_MAKE_truncates_toward_zero_witness :
    ((-(2 : ℚ) ^ 31 ≤ (7 / 2 ^ 27 : ℚ) * 2 ^ 24 ∧ (7 / 2 ^ 27 : ℚ) * 2 ^ 24 < (2 : ℚ) ^ 31) ∧
      ∃ r : ℤ, evalTokens arduinoAVR (FIXED_8_24_MAKE [Tok.atom (CVal.real (7 / 2 ^ 27))]) =
          some (CVal.sint 32 r) ∧
        (-(2 : ℤ) ^ 31 ≤ r ∧ r < (2 : ℤ) ^ 31) ∧
        |(r : ℚ)| ≤ |(7 / 2 ^ 27 : ℚ) * 2 ^ 24| ∧ |(7 / 2 ^ 27 : ℚ) * 2 ^ 24 - (r : ℚ)| < 1) ∧
    ((-(2 : ℚ) ^ 31 ≤ (-5 / 2 ^ 9 : ℚ) * 2 ^ 8 ∧ (-5 / 2 ^ 9 : ℚ) * 2 ^ 8 < (2 : ℚ) ^ 31) ∧
      ∃ r : ℤ, evalTokens arduinoAVR (FIXED_24_8_MAKE [Tok.atom (CVal.real (-5 / 2 ^ 9))]) =
          some (CVal.sint 32 r) ∧
        (-(2 : ℤ) ^ 31 ≤ r ∧ r < (2 : ℤ) ^ 31) ∧
        |(r : ℚ)| ≤ |(-5 / 2 ^ 9 : ℚ) * 2 ^ 8| ∧ |(-5 / 2 ^ 9 : ℚ) * 2 ^ 8 - (r : ℚ)| < 1) :=
  ⟨⟨⟨by norm_num, by norm_num⟩,
      (FIXED_MAKE_truncates_toward_zero arduinoAVR (by decide) (7 / 2 ^ 27)).1
        (by norm_num) (by norm_num)⟩,
    ⟨⟨by norm_num, by norm_num⟩,
      (FIXED_MAKE_truncates_toward_zero arduinoAVR (by decide) (-5 / 2 ^ 9)).2
        (by norm_num) (by norm_num)⟩⟩

/-- C2: for every integer `k` with `-2 ^ 31 ≤ k < 2 ^ 31`, `FIXED_8_24_MAKE`
applied to `k / 2 ^ 24` returns exactly `k`; in particular the results for
`1.0` and `0.5` are `16777216` and `8388608`. -/
theorem FIXED_8_24_MAKE_exact (P : Platform) (hw : 32 ≤ P.ulongBits) (k : ℤ)
    (hlo : -(2 : ℤ) ^ 31 ≤ k) (hhi : k < (2 : ℤ) ^ 31) :
    evalTokens P (FIXED_8_24_MAKE [Tok.atom (CVal.real ((k : ℚ) / 2 ^ 24))]) =
      some (CVal.sint 32 k) ∧
    evalTokens P (FIXED_8_24_MAKE [Tok.atom (CVal.real 1)]) = some (CVal.sint 32 16777216) ∧
    evalTokens P (FIXED_8_24_MAKE [Tok.atom (CVal.real (1 / 2))]) =
      some (CVal.sint 32 8388608) := by
  have key : ∀ j : ℤ, -(2 : ℤ) ^ 31 ≤ j → j < (2 : ℤ) ^ 31 → ∀ x : ℚ, x * 2 ^ 24 = (j : ℚ) →
      evalTokens P (FIXED_8_24_MAKE [Tok.atom (CVal.real x)]) = some (CVal.sint 32 j) := by
    intro j h1 h2 x hx
    have hlo' : -(2 : ℚ) ^ 31 ≤ x * 2 ^ 24 := by rw [hx]; exact_mod_cast h1
    have hhi' : x * 2 ^ 24 < (2 : ℚ) ^ 31 := by rw [hx]; exact_mod_cast h2
    rw [eval_FIXED_8_24_real P hw x hlo' hhi', hx, truncToZero_intCast]
  refine ⟨key k hlo hhi _ (by field_simp), key 16777216 (by norm_num) (by norm_num) 1 (by norm_num),
    key 8388608 (by norm_num) (by norm_num) (1 / 2) (by norm_num)⟩

theorem FIXED_8_24_MAKE_exact_witness :
    (-(2 : ℤ) ^ 31 ≤ -3 ∧ (-3 : ℤ) < (2 : ℤ) ^ 31) ∧
    evalTokens arduinoAVR (FIXED_8_24_MAKE [Tok.atom (CVal.real (((-3 : ℤ) : ℚ) / 2 ^ 24))]) =
      some (CVal.sint 32 (-3)) :=
  ⟨⟨by decide, by decide⟩,
    (FIXED_8_24_MAKE_exact arduinoAVR (by decide) (-3) (by decide) (by decide)).1⟩

/-- C3: for every integer `k` with `-2 ^ 31 ≤ k < 2 ^ 31`, `FIXED_24_8_MAKE`
applied to `k / 2 ^ 8` returns exactly `k`; in particular the results for
`1.0` and `10.0` are `256` and `2560`. -/
theorem FIXED_24_8_MAKE_exact (P : Platform) (hw : 32 ≤ P.ulongBits) (k : ℤ)
    (hlo : -(2 : ℤ) ^ 31 ≤ k) (hhi : k < (2 : ℤ) ^ 31) :
    evalTokens P (FIXED_24_8_MAKE [Tok.atom (CVal.real ((k : ℚ) / 2 ^ 8))]) =
      some (CVal.sint 32 k) ∧
    evalTokens P (FIXED_24_8_MAKE [Tok.atom (CVal.real 1)]) = some (CVal.sint 32 256) ∧
    evalTokens P (FIXED_24_8_MAKE [Tok.atom (CVal.real 10)]) = some (CVal.sint 32 2560) := by
  have key : ∀ j : ℤ, -(2 : ℤ) ^ 31 ≤ j → j < (2 : ℤ) ^ 31 → ∀ x : ℚ, x * 2 ^ 8 = (j : ℚ) →
      evalTokens P (FIXED_24_8_MAKE [Tok.atom (CVal.real x)]) = some (CVal.sint 32 j) := by
    intro j h1 h2 x hx
    have hlo' : -(2 : ℚ) ^ 31 ≤ x * 2 ^ 8 := by rw [hx]; exact_mod_cast h1
    have hhi' : x * 2 ^ 8 < (2 : ℚ) ^ 31 := by rw [hx]; exact_mod_cast h2
    rw [eval_FIXED_24_8_real P hw x hlo' hhi', hx, truncToZero_intCast]
  refine ⟨key k hlo hhi _ (by field_simp), key 256 (by norm_num) (by norm_num) 1 (by norm_num),
    key 2560 (by norm_num) (by norm_num) 10 (by norm_num)⟩

theorem FIXED_24_8_MAKE_exact_witness :
    (-(2 : ℤ) ^ 31 ≤ 2147483647 ∧ (2147483647 : ℤ) < (2 : ℤ) ^ 31) ∧
    evalTokens arduinoAVR
        (FIXED_24_8_MAKE [Tok.atom (CVal.real (((2147483647 : ℤ) : ℚ) / 2 ^ 8))]) =
      some (CVal.sint 32 2147483647) :=
  ⟨⟨by decide, by decide⟩,
    (FIXED_24_8_MAKE_exact arduinoAVR (by decide) 2147483647 (by decide) (by decide)).1⟩

/-- C6: round trip within one unit of least precision: for every rational
`x` with `x * 2 ^ 24` in `[-2 ^ 31, 2 ^ 31)`, `FIXED_8_24_MAKE(x)` returns an
integer `r` and `real_from_Q24 r` differs from `x` by at most `2 ^ -24`. -/
theorem FIXED_8_24_MAKE_round_trip (P : Platform) (hw : 32 ≤ P.ulongBits) (x : ℚ)
    (hlo : -(2 : ℚ) ^ 31 ≤ x * 2 ^ 24) (hhi : x * 2 ^ 24 < (2 : ℚ) ^ 31) :
    ∃ r : ℤ, evalTokens P (FIXED_8_24_MAKE [Tok.atom (CVal.real x)]) = some (CVal.sint 32 r) ∧
      |real_from_Q24 r - x| ≤ 1 / 2 ^ 24 := by
  refine ⟨truncToZero (x * 2 ^ 24), eval_FIXED_8_24_real P hw x hlo hhi, ?_⟩
  have h := (truncToZero_abs (x * 2 ^ 24)).2
  have hx : real_from_Q24 (truncToZero (x * 2 ^ 24)) - x =
      -(x * 2 ^ 24 - (truncToZero (x * 2 ^ 24) : ℚ)) / 2 ^ 24 := by
    unfold real_from_Q24
    field_simp
    ring
  rw [hx, abs_div, abs_neg, abs_of_pos (by positivity : (0 : ℚ) < 2 ^ 24)]
  exact div_le_div_of_nonneg_right h.le (by positivity)

theorem FIXED_8_24_MAKE_round_trip_witness :
    (-(2 : ℚ) ^ 31 ≤ (-1 / 3 : ℚ) * 2 ^ 24 ∧ (-1 / 3 : ℚ) * 2 ^ 24 < (2 : ℚ) ^ 31) ∧
    ∃ r : ℤ, evalTokens arduinoAVR (FIXED_8_24_MAKE [Tok.atom (CVal.real (-1 / 3))]) =
        some (CVal.sint 32 r) ∧
      |real_from_Q24 r - (-1 / 3 : ℚ)| ≤ 1 / 2 ^ 24 :=
  ⟨⟨by norm_num, by norm_num⟩,
    FIXED_8_24_MAKE_round_trip arduinoAVR (by decide) (-1 / 3) (by norm_num) (by norm_num)⟩

/-- C7 (as stated, refuted): at the negative `x = -1 / 2 ^ 25` the scaled
value `x * 2 ^ 24 = -1 / 2` is in range and its floor is `-1`, but
`FIXED_8_24_MAKE(x)` is `0`: a negative value is not floored. -/
theorem FIXED_8_24_MAKE_negative_not_floored :
    (-1 / 2 ^ 25 : ℚ) < 0 ∧
    (-(2 : ℚ) ^ 31 ≤ (-1 / 2 ^ 25 : ℚ) * 2 ^ 24 ∧ (-1 / 2 ^ 25 : ℚ) * 2 ^ 24 < (2 : ℚ) ^ 31) ∧
    evalTokens arduinoAVR (FIXED_8_24_MAKE [Tok.atom (CVal.real (-1 / 2 ^ 25))]) =
      some (CVal.sint 32 0) ∧
    ⌊(-1 / 2 ^ 25 : ℚ) * 2 ^ 24⌋ = -1 := by
  have hlo : -(2 : ℚ) ^ 31 ≤ (-1 / 2 ^ 25 : ℚ) * 2 ^ 24 := by norm_num
  have hhi : (-1 / 2 ^ 25 : ℚ) * 2 ^ 24 < (2 : ℚ) ^ 31 := by norm_num
  refine ⟨by norm_num, ⟨hlo, hhi⟩, ?_, ?_⟩
  · rw [eval_FIXED_8_24_real arduinoAVR (by decide) _ hlo hhi,
      truncToZero_of_nonpos (by norm_num)]
    have : ⌈(-1 / 2 ^ 25 : ℚ) * 2 ^ 24⌉ = 0 := by
      rw [Int.ceil_eq_iff]; norm_num
    rw [this]
  · rw [Int.floor_eq_iff]; norm_num

/-- C7 (amended): for every rational `x` with `x * 2 ^ n` in the signed
32-bit range (`n = 24` for `FIXED_8_24_MAKE`, `n = 8` for `FIXED_24_8_MAKE`),
the multiply-then-cast truncates `x * 2 ^ n` toward zero for either sign: it
is the floor when `x` is not negative and the ceiling when `x` is not
positive. -/
theorem FIXED_MAKE_floor_or_ceil (P : Platform) (hw : 32 ≤ P.ulongBits) (x : ℚ) :
    (-(2 : ℚ) ^ 31 ≤ x * 2 ^ 24 → x * 2 ^ 24 < (2 : ℚ) ^ 31 →
      (0 ≤ x → evalTokens P (FIXED_8_24_MAKE [Tok.atom (CVal.real x)]) =
        some (CVal.sint 32 ⌊x * 2 ^ 24⌋)) ∧
      (x ≤ 0 → evalTokens P (FIXED_8_24_MAKE [Tok.atom (CVal.real x)]) =
        some (CVal.sint 32 ⌈x * 2 ^ 24⌉))) ∧
    (-(2 : ℚ) ^ 31 ≤ x * 2 ^ 8 → x * 2 ^ 8 < (2 : ℚ) ^ 31 →
      (0 ≤ x → evalTokens P (FIXED_24_8_MAKE [Tok.atom (CVal.real x)]) =
        some (CVal.sint 32 ⌊x * 2 ^ 8⌋)) ∧
      (x ≤ 0 → evalTokens P (FIXED_24_8_MAKE [Tok.atom (CVal.real x)]) =
        some (CVal.sint 32 ⌈x * 2 ^ 8⌉))) := by
  refine ⟨fun hlo hhi => ⟨fun hx => ?_, fun hx => ?_⟩, fun hlo hhi => ⟨fun hx => ?_, fun hx => ?_⟩⟩
  · rw [eval_FIXED_8_24_real P hw x hlo hhi,
      truncToZero_of_nonneg (mul_nonneg hx (by positivity))]
  · rw [eval_FIXED_8_24_real P hw x hlo hhi,
      truncToZero_of_nonpos (mul_nonpos_of_nonpos_of_nonneg hx (by positivity))]
  · rw [eval_FIXED_24_8_real P hw x hlo hhi,
      truncToZero_of_nonneg (mul_nonneg hx (by positivity))]
  · rw [eval_FIXED_24_8_real P hw x hlo hhi,
      truncToZero_of_nonpos (mul_nonpos_of_nonpos_of_nonneg hx (by positivity))]

theorem FIXED_MAKE_floor_or_ceil_witness :
    ((-(2 : ℚ) ^ 31 ≤ (-1 / 2 ^ 25 : ℚ) * 2 ^ 24 ∧ (-1 / 2 ^ 25 : ℚ) * 2 ^ 24 < (2 : ℚ) ^ 31) ∧
      (-1 / 2 ^ 25 : ℚ) ≤ 0 ∧
      evalTokens arduinoAVR (FIXED_8_24_MAKE [Tok.atom (CVal.real (-1 / 2 ^ 25))]) =
        some (CVal.sint 32 ⌈(-1 / 2 ^ 25 : ℚ) * 2 ^ 24⌉)) ∧
    ((-(2 : ℚ) ^ 31 ≤ (10 / 3 : ℚ) * 2 ^ 8 ∧ (10 / 3 : ℚ) * 2 ^ 8 < (2 : ℚ) ^ 31) ∧
      (0 : ℚ) ≤ 10 / 3 ∧
      evalTokens arduinoAVR (FIXED_24_8_MAKE [Tok.atom (CVal.real (10 / 3))]) =
        some (CVal.sint 32 ⌊(10 / 3 : ℚ) * 2 ^ 8⌋)) :=
  ⟨⟨⟨by norm_num, by norm_num⟩, by norm_num,
      ((FIXED_MAKE_floor_or_ceil arduinoAVR (by decide) (-1 / 2 ^ 25)).1
        (by norm_num) (by norm_num)).2 (by norm_num)⟩,
    ⟨⟨by norm_num, by norm_num⟩, by norm_num,
      ((FIXED_MAKE_floor_or_ceil arduinoAVR (by decide) (10 / 3)).2
        (by norm_num) (by norm_num)).1 (by norm_num)⟩⟩

/-- C10: the conversions are monotone on their representable range: for
rationals `x ≤ y` whose scaled values are both in `[-2 ^ 31, 2 ^ 31)`, both
conversions return a result and the result for `x` is at most that for `y`,
for `FIXED_8_24_MAKE` (scale `2 ^ 24`) and for `FIXED_24_8_MAKE` (scale
`2 ^ 8`). Only the lower bound on `x` and the upper bound on `y` are assumed;
the other two bounds follow from `x ≤ y`. -/
theorem FIXED_MAKE_monotone (P : Platform) (hw : 32 ≤ P.ulongBits) (x y : ℚ) (hxy : x ≤ y) :
    (-(2 : ℚ) ^ 31 ≤ x * 2 ^ 24 → y * 2 ^ 24 < (2 : ℚ) ^ 31 →
      ∃ r s : ℤ,
        evalTokens P (FIXED_8_24_MAKE [Tok.atom (CVal.real x)]) = some (CVal.sint 32 r) ∧
        evalTokens P (FIXED_8_24_MAKE [Tok.atom (CVal.real y)]) = some (CVal.sint 32 s) ∧
        r ≤ s) ∧
    (-(2 : ℚ) ^ 31 ≤ x * 2 ^ 8 → y * 2 ^ 8 < (2 : ℚ) ^ 31 →
      ∃ r s : ℤ,
        evalTokens P (FIXED_24_8_MAKE [Tok.atom (CVal.real x)]) = some (CVal.sint 32 r) ∧
        evalTokens P (FIXED_24_8_MAKE [Tok.atom (CVal.real y)]) = some (CVal.sint 32 s) ∧
        r ≤ s) := by
  constructor
  · intro hlo hhi
    have hm : x * 2 ^ 24 ≤ y * 2 ^ 24 := mul_le_mul_of_nonneg_right hxy (by positivity)
    exact ⟨_, _, eval_FIXED_8_24_real P hw x hlo (lt_of_le_of_lt hm hhi),
      eval_FIXED_8_24_real P hw y (hlo.trans hm) hhi, truncToZero_mono hm⟩
  · intro hlo hhi
    have hm : x * 2 ^ 8 ≤ y * 2 ^ 8 := mul_le_mul_of_nonneg_right hxy (by positivity)
    exact ⟨_, _, eval_FIXED_24_8_real P hw x hlo (lt_of_le_of_lt hm hhi),
      eval_FIXED_24_8_real P hw y (hlo.trans hm) hhi, truncToZero_mono hm⟩

theorem FIXED_MAKE_monotone_witness :
    (-2 / 3 : ℚ) ≤ 1 / 5 ∧
    ((-(2 : ℚ) ^ 31 ≤ (-2 / 3 : ℚ) * 2 ^ 24 ∧ (1 / 5 : ℚ) * 2 ^ 24 < (2 : ℚ) ^ 31) ∧
      ∃ r s : ℤ,
        evalTokens arduinoAVR (FIXED_8_24_MAKE [Tok.atom (CVal.real (-2 / 3))]) =
          some (CVal.sint 32 r) ∧
        evalTokens arduinoAVR (FIXED_8_24_MAKE [Tok.atom (CVal.real (1 / 5))]) =
          some (CVal.sint 32 s) ∧
        r ≤ s) ∧
    ((-(2 : ℚ) ^ 31 ≤ (-2 / 3 : ℚ) * 2 ^ 8 ∧ (1 / 5 : ℚ) * 2 ^ 8 < (2 : ℚ) ^ 31) ∧
      ∃ r s : ℤ,
        evalTokens arduinoAVR (FIXED_24_8_MAKE [Tok.atom (CVal.real (-2 / 3))]) =
          some (CVal.sint 32 r) ∧
        evalTokens arduinoAVR (FIXED_24_8_MAKE [Tok.atom (CVal.real (1 / 5))]) =
          some (CVal.sint 32 s) ∧
        r ≤ s) :=
  ⟨by norm_num,
    ⟨⟨by norm_num, by norm_num⟩,
      (FIXED_MAKE_monotone arduinoAVR (by decide) (-2 / 3) (1 / 5) (by norm_num)).1
        (by norm_num) (by norm_num)⟩,
    ⟨⟨by norm_num, by norm_num⟩,
      (FIXED_MAKE_monotone arduinoAVR (by decide) (-2 / 3) (1 / 5) (by norm_num)).2
        (by norm_num) (by norm_num)⟩⟩

/-! Integer arguments and compound arguments. -/

/-- C8: overflow is silent: for every integer argument `a` (of a signed type
no wider than `unsigned long`), `FIXED_8_24_MAKE(a)` always returns a value:
the `int32_t` congruent to `a * 2 ^ 24` modulo `2 ^ 32`. It is `a * 2 ^ 24`
itself exactly when `-128 ≤ a ≤ 127`; `a = 128` gives `-2147483648` and
`a = 256` gives `0`. Likewise `FIXED_24_8_MAKE(a)` returns the `int32_t`
congruent to `a * 2 ^ 8` modulo `2 ^ 32`. -/
theorem FIXED_MAKE_integer_wraps (P : Platform) (hw : 32 ≤ P.ulongBits)
    (b : ℕ) (hb : b ≤ P.ulongBits) (a : ℤ) :
    (∃ r : ℤ, evalTokens P (FIXED_8_24_MAKE [Tok.atom (CVal.sint b a)]) = some (CVal.sint 32 r) ∧
      (-(2 : ℤ) ^ 31 ≤ r ∧ r < (2 : ℤ) ^ 31) ∧ r ≡ a * 2 ^ 24 [ZMOD (2 : ℤ) ^ 32] ∧
      (r = a * 2 ^ 24 ↔ -128 ≤ a ∧ a ≤ 127)) ∧
    evalTokens P (FIXED_8_24_MAKE [Tok.atom (CVal.sint b 128)]) =
      some (CVal.sint 32 (-2147483648)) ∧
    evalTokens P (FIXED_8_24_MAKE [Tok.atom (CVal.sint b 256)]) = some (CVal.sint 32 0) ∧
    (∃ r : ℤ, evalTokens P (FIXED_24_8_MAKE [Tok.atom (CVal.sint b a)]) = some (CVal.sint 32 r) ∧
      (-(2 : ℤ) ^ 31 ≤ r ∧ r < (2 : ℤ) ^ 31) ∧ r ≡ a * 2 ^ 8 [ZMOD (2 : ℤ) ^ 32]) := by
  refine ⟨?_, ?_, ?_, eval_FIXED_24_8_sint P hw b hb a⟩
  · obtain ⟨r, he, hr, hm⟩ := eval_FIXED_8_24_sint P hw b hb a
    refine ⟨r, he, hr, hm, ?_, ?_⟩
    · intro h
      rw [h] at hr
      norm_num at hr
      omega
    · intro ha
      apply eq_of_modEq_of_range hm hr
      norm_num
      omega
  · refine result_eq_of_modEq (eval_FIXED_8_24_sint P hw b hb 128) (by norm_num) ?_
    rw [Int.modEq_iff_dvd]
    norm_num
  · refine result_eq_of_modEq (eval_FIXED_8_24_sint P hw b hb 256) (by norm_num) ?_
    rw [Int.modEq_iff_dvd]
    norm_num

theorem FIXED_MAKE_integer_wraps_witness :
    (32 ≤ arduinoAVR.ulongBits ∧ 16 ≤ arduinoAVR.ulongBits) ∧
    ∃ r : ℤ, evalTokens arduinoAVR (FIXED_8_24_MAKE [Tok.atom (CVal.sint 16 (-129))]) =
        some (CVal.sint 32 r) ∧
      (-(2 : ℤ) ^ 31 ≤ r ∧ r < (2 : ℤ) ^ 31) ∧ r ≡ -129 * 2 ^ 24 [ZMOD (2 : ℤ) ^ 32] ∧
      (r = -129 * 2 ^ 24 ↔ -128 ≤ (-129 : ℤ) ∧ (-129 : ℤ) ≤ 127) :=
  ⟨⟨by decide, by decide⟩,
    (FIXED_MAKE_integer_wraps arduinoAVR (by decide) 16 (by decide) (-129)).1⟩

end TBone
